import Mathlib

set_option maxHeartbeats 1000000
set_option linter.unusedVariables false
set_option autoImplicit false

namespace Codreamer

/-!
Shallow embedding of the core of the `codreamer` repository:
knowledge-graph store and scorer (`knowledge_graph/kg_store.py`,
`knowledge_graph/kg_scoring.py`), feedback aggregation
(`feedback/feedback.py`), trajectory persistence helpers
(`scripts/pipeline.py`) and the rollout engine (`training/rollout.py`,
`training/tools.py`).  Python floats are modelled as exact rationals (`ℚ`),
Python dicts as association lists with first-match lookup and
insert-or-overwrite assignment, and Python sets as duplicate-free lists
(only membership is observable).
-/

/-- First-match lookup in an association list: the semantics of reading a
Python `dict` (`d[k]` / `d.get(k)`), whose keys are unique. -/
def alookup {α : Type} : List (String × α) → String → Option α
  | [], _ => none
  | (k, v) :: rest, key => if k = key then some v else alookup rest key

/-- Insert-or-overwrite in an association list: the semantics of Python
`d[k] = v` (update in place if the key exists, else append at the end). -/
def ainsert {α : Type} : List (String × α) → String → α → List (String × α)
  | [], key, v => [(key, v)]
  | (k, w) :: rest, key, v =>
      if k = key then (key, v) :: rest else (k, w) :: ainsert rest key v

/-- Insert into the sorted position: helper for the stable sort that models
Python `sorted`. An element is placed before the first entry it compares
`le` to, so earlier input elements precede equal later ones (stability). -/
def ordInsert {α : Type} (le : α → α → Bool) (a : α) : List α → List α
  | [] => [a]
  | b :: l => if le a b then a :: b :: l else b :: ordInsert le a l

/-- Stable sort (insertion sort): the semantics of Python `sorted`, which
guarantees stability. -/
def stableSort {α : Type} (le : α → α → Bool) : List α → List α
  | [] => []
  | a :: l => ordInsert le a (stableSort le l)

/-- Comparison used by `sorted(nodes, key=lambda n: -score(n))`: ascending
by negated key, i.e. `a` may precede `b` iff `key b ≤ key a`. -/
def keyLe {α : Type} (key : α → ℚ) (a b : α) : Bool := decide (key b ≤ key a)

/-- Python-set insertion on a duplicate-free list (`s.add(x)`). -/
def listInsert (x : String) (l : List String) : List String :=
  if x ∈ l then l else l ++ [x]

/-! ## GraphStore — `knowledge_graph/kg_store.py` (class `KnowledgeGraphStore`)

`self.nodes : dict[str, str]` (id → content, insertion order, unique keys)
and `self.out_edges : dict[str, list[tuple[str, str]]]` (id → `(target, label)`
adjacency). The key uniqueness guaranteed by the Python dict is carried as a
structure invariant. -/

structure KnowledgeGraphStore where
  nodes : List (String × String)
  out_edges : List (String × List (String × String))
  nodes_nodup : (nodes.map Prod.fst).Nodup

namespace KnowledgeGraphStore

/-- `nid in self.nodes`. -/
def hasNode (g : KnowledgeGraphStore) (nid : String) : Bool :=
  (alookup g.nodes nid).isSome

/-- `self.nodes[nid]` (defaulting to `""` where the source uses
`self.nodes.get(nid, "")`; every claimed use guards membership first). -/
def content (g : KnowledgeGraphStore) (nid : String) : String :=
  (alookup g.nodes nid).getD ""

/-- `self.out_edges.get(nid, [])`. -/
def outEdges (g : KnowledgeGraphStore) (nid : String) : List (String × String) :=
  (alookup g.out_edges nid).getD []

/-- The `while frontier and len(results) < k` loop of
`KnowledgeGraphStore.expand`: pop the frontier head; skip ids already seen or
absent from the store; otherwise record the node and push its unseen edge
targets. Returns the accumulated `results` plus the final `seen` set. -/
def expandLoop (g : KnowledgeGraphStore) (k : Nat) :
    List String → List (String × String) → List String →
      List (String × String) × List String
  | seen, results, [] => (results, seen)
  | seen, results, nid :: rest =>
      if k ≤ results.length then (results, seen)
      else if nid ∈ seen ∨ ¬ g.hasNode nid then expandLoop g k seen results rest
      else
        let seen' := nid :: seen
        let results' := results ++ [(nid, g.content nid)]
        let frontier' := rest ++
          ((g.outEdges nid).filterMap fun e => if e.1 ∈ seen' then none else some e.1)
        expandLoop g k seen' results' frontier'
  termination_by seen _ frontier =>
    ((g.nodes.filter fun p => decide (p.1 ∉ seen)).length, frontier.length)
  decreasing_by
  · apply Prod.Lex.right
    simp
  · apply Prod.Lex.left
    rename_i hcond
    rw [not_or, not_not] at hcond
    obtain ⟨hnot, hhas⟩ := hcond
    have hmem : nid ∈ g.nodes.map Prod.fst := by
      have h1 : (alookup g.nodes nid).isSome = true := hhas
      clear hhas hnot
      generalize g.nodes = l at h1 ⊢
      induction l with
      | nil => simp [alookup] at h1
      | cons p t ih =>
          simp only [alookup] at h1
          by_cases hp : p.1 = nid
          · simp [hp]
          · rw [if_neg hp] at h1
            simp only [List.map_cons, List.mem_cons]
            exact Or.inr (ih h1)
    clear hhas
    generalize g.nodes = l at hmem ⊢
    induction l with
    | nil => simp at hmem
    | cons p t ih =>
        simp only [List.filter_cons]
        by_cases hp : p.1 = nid
        · have hL : decide (p.1 ∉ nid :: seen) = false := by simp [hp]
          have hR : decide (p.1 ∉ seen) = true := by simp [hp, hnot]
          rw [hL, hR]
          have hsub : (t.filter fun q => decide (q.1 ∉ nid :: seen)).length ≤
              (t.filter fun q => decide (q.1 ∉ seen)).length := by
            apply List.Sublist.length_le
            apply List.monotone_filter_right
            intro a ha
            simp only [decide_eq_true_eq, List.mem_cons, not_or] at ha ⊢
            exact ha.2
          simp only [Bool.false_eq_true, if_false, if_true, List.length_cons]
          omega
        · have hmem' : nid ∈ t.map Prod.fst := by
            have h2 : nid = p.1 ∨ nid ∈ t.map Prod.fst := by simpa using hmem
            rcases h2 with h2 | h2
            · exact absurd h2.symm hp
            · exact h2
          have ht := ih hmem'
          by_cases hps : p.1 ∈ seen
          · have hL : decide (p.1 ∉ nid :: seen) = false := by simp [hps]
            have hR : decide (p.1 ∉ seen) = false := by simp [hps]
            rw [hL, hR]
            simpa using ht
          · have hL : decide (p.1 ∉ nid :: seen) = true := by simp [hp, hps]
            have hR : decide (p.1 ∉ seen) = true := by simp [hps]
            rw [hL, hR]
            simpa using Nat.succ_lt_succ ht

/-- The padding loop of `KnowledgeGraphStore.expand`
(`for nid in self.nodes.keys(): ...`): append store entries whose id was not
seen until `k` results are reached or the store is exhausted. -/
def padLoop (seen : List String) (k : Nat) :
    List (String × String) → List (String × String) → List (String × String)
  | results, [] => results
  | results, p :: rest =>
      if p.1 ∈ seen then padLoop seen k results rest
      else
        let results' := results ++ [p]
        if k ≤ results'.length then results' else padLoop seen k results' rest

/-- `KnowledgeGraphStore.expand(seed_nodes, goal, k)`: BFS from the seeds
(FIFO frontier, dedup by `seen`, unknown ids skipped), then pad with unseen
store entries in store iteration order, finally `results[:k]`.
The `goal` argument is only logged by the source. -/
def expand (g : KnowledgeGraphStore) (seed_nodes : List String) (goal : String)
    (k : Nat) : List (String × String) :=
  let bfs := expandLoop g k [] [] seed_nodes
  let results := if bfs.1.length < k then padLoop bfs.2 k bfs.1 g.nodes else bfs.1
  results.take k

/-- One `for _ in range(...)` iteration body of `KnowledgeGraphStore.subgraph`:
`next_layer = {tgt for nid in layer for (tgt, _) in out_edges[nid] if tgt not in seen}`.
Sets are duplicate-free lists; only membership is observable. -/
def subgraphStep (g : KnowledgeGraphStore) (seen layer : List String) : List String :=
  layer.foldl
    (fun acc nid =>
      (g.outEdges nid).foldl
        (fun acc2 e => if e.1 ∈ seen then acc2 else listInsert e.1 acc2) acc)
    []

/-- The `for _ in range(max(radius, 0))` loop of `subgraph`:
`seen.update(layer); layer = next_layer` each iteration. -/
def subgraphLoop (g : KnowledgeGraphStore) :
    Nat → List String → List String → List String × List String
  | 0, seen, layer => (seen, layer)
  | r + 1, seen, layer =>
      subgraphLoop g r (layer.foldl (fun acc x => listInsert x acc) seen)
        (subgraphStep g seen layer)

/-- `KnowledgeGraphStore.subgraph(center, radius)`: the node list is
`seen ∪ layer` restricted to known nodes; the edge list collects, for every
returned node, its outgoing edges whose target is a known node of the store
(`if tgt in self.nodes`). -/
def subgraph (g : KnowledgeGraphStore) (center : List String) (radius : Nat) :
    List (String × String) × List (String × String × String) :=
  let sl := subgraphLoop g radius [] center.eraseDups
  let node_list := (sl.2.foldl (fun acc x => listInsert x acc) sl.1).filterMap
    fun nid => if g.hasNode nid then some (nid, g.content nid) else none
  let edge_list := node_list.flatMap fun p =>
    (g.outEdges p.1).filterMap fun e =>
      if g.hasNode e.1 then some (p.1, e.1, e.2) else none
  (node_list, edge_list)

/-- `KnowledgeGraphStore.get_node_facts(node_id)`: `{}` for unknown ids, else
the `node_id`/`content` record. -/
def get_node_facts (g : KnowledgeGraphStore) (node_id : String) :
    Option (String × String) :=
  if g.hasNode node_id then some (node_id, g.content node_id) else none

end KnowledgeGraphStore

/-! ## NodeScorer — `knowledge_graph/kg_scoring.py` (class `KGScorer`)

`self.scores : dict[str, float]` is an association list `List (String × ℚ)`.
-/

/-- `self.scores.get(nid, 0.0)`: unseen nodes default to `0.0`. -/
def scoreOf (scores : List (String × ℚ)) (nid : String) : ℚ :=
  (alookup scores nid).getD 0

/-- The per-node assignment of `KGScorer.update_from_trajectory`:
`max(0.0, min(1.0, score * 0.9 + reward * 0.1))`. -/
def emaUpdate (s r : ℚ) : ℚ := max 0 (min 1 (s * 0.9 + r * 0.1))

/-- `KGScorer.update_from_trajectory(node_ids, reward)`: for each id, set
`self.scores[nid] = max(0.0, min(1.0, self.scores.get(nid, 0.0) * 0.9 + reward * 0.1))`. -/
def update_from_trajectory (scores : List (String × ℚ)) (node_ids : List String)
    (reward : ℚ) : List (String × ℚ) :=
  node_ids.foldl (fun sc nid => ainsert sc nid (emaUpdate (scoreOf sc nid) reward)) scores

/-- `KGScorer.rank_nodes(query, nodes)`:
`[n["node_id"] for n in sorted(nodes, key=lambda n: -self.scores.get(n["node_id"], 0.0))]`.
Nodes are `(node_id, content)` pairs; the query is accepted and ignored. -/
def rank_nodes (scores : List (String × ℚ)) (query : String)
    (nodes : List (String × String)) : List String :=
  (stableSort (keyLe (fun n => scoreOf scores n.1)) nodes).map Prod.fst

/-! ## Feedback / reward aggregation — `feedback/feedback.py`

Decoded feedback records, keeping exactly the fields the aggregation reads
(`prospect_id`, `step` and `ts` are never consulted by the reward math). -/

inductive FeedbackEvent
  | ruler (trajectory_id : String) (rank : Int) (group_size : Int)
      (rubric : List (String × ℚ))
  | human (trajectory_id : String) (winner : String) (loser : String)
      (confidence : ℚ)
  | online (trajectory_id : String) (opened replied call_booked opportunity
      closed_won : Bool)

/-- The `trajectory_id` field shared by every event variant. -/
def FeedbackEvent.tid : FeedbackEvent → String
  | .ruler t _ _ _ => t
  | .human t _ _ _ => t
  | .online t _ _ _ _ _ => t

/-- The `ranks` list built by `_ruler_score_from_events`: pairs
`(rank, max(1, group_size))` of ruler events, kept only when
`group_size > 1`. -/
def rulerRanks (events : List FeedbackEvent) : List (Int × Int) :=
  events.filterMap fun e =>
    match e with
    | .ruler _ rank gs _ => if 1 < max 1 gs then some (rank, max 1 gs) else none
    | _ => none

/-- The `rubric_scores` list of `_ruler_score_from_events`: for each ruler
event with a non-empty rubric, `sum(values) / max(1, len(rubric))`. -/
def rubricAvgs (events : List FeedbackEvent) : List ℚ :=
  events.filterMap fun e =>
    match e with
    | .ruler _ _ _ rubric =>
        if rubric.isEmpty then none
        else some ((rubric.map Prod.snd).sum / (max 1 rubric.length : ℚ))
    | _ => none

/-- `_ruler_score_from_events(events)`: average of normalized ranks
(`(gs - r)/(gs - 1)`, best rank 1 → 1.0) and average of rubric means,
blended 50/50, each part defaulting to `0.0` when its list is empty. -/
def ruler_score (events : List FeedbackEvent) : ℚ :=
  let ranks := rulerRanks events
  let rubric_scores := rubricAvgs events
  let rank_component : ℚ :=
    if ranks.isEmpty then 0
    else
      ((ranks.map fun rg =>
        if 1 < rg.2 then ((rg.2 : ℚ) - (rg.1 : ℚ)) / ((rg.2 : ℚ) - 1) else 0).sum)
        / (ranks.length : ℚ)
  let rubric_component : ℚ :=
    if rubric_scores.isEmpty then 0 else rubric_scores.sum / (rubric_scores.length : ℚ)
  0.5 * rank_component + 0.5 * rubric_component

/-- The `(wins, total)` confidence sums of `_human_score_from_events`. -/
def humanTotals (events : List FeedbackEvent) (trajectory_id : String) : ℚ × ℚ :=
  events.foldl
    (fun wt e =>
      match e with
      | .human _ w l conf =>
          if w = trajectory_id then (wt.1 + conf, wt.2 + conf)
          else if l = trajectory_id then (wt.1, wt.2 + conf)
          else wt
      | _ => wt)
    (0, 0)

/-- `_human_score_from_events(events, trajectory_id)`: Bradley-Terry-like win
rate `wins / total`, `0.0` when the trajectory appears in no preference. -/
def human_score (events : List FeedbackEvent) (trajectory_id : String) : ℚ :=
  let wt := humanTotals events trajectory_id
  if 0 < wt.2 then wt.1 / wt.2 else 0

/-- `_online_score_from_events(events)`: maximum ordinal weight among
satisfied outcome flags across all online events (`0.0` without any). -/
def online_score (events : List FeedbackEvent) : ℚ :=
  events.foldl
    (fun acc e =>
      match e with
      | .online _ opened replied call_booked opportunity closed_won =>
          let acc := if opened then max acc 0.2 else acc
          let acc := if replied then max acc 0.4 else acc
          let acc := if call_booked then max acc 0.6 else acc
          let acc := if opportunity then max acc 0.8 else acc
          if closed_won then max acc 1 else acc
      | _ => acc)
    0

/-- `RewardMixConfig` weights (defaults from the source). -/
structure RewardMixConfig where
  alpha : ℚ := 0.6
  beta : ℚ := 0.2
  gamma : ℚ := 0.2

/-- The bucket `compute_rewards` builds for one trajectory id: every decoded
event whose `trajectory_id` matches, in source order (`_iter_events_for`
scans the configured feedback files in a fixed order and keeps matches). -/
def bucketFor (events : List FeedbackEvent) (trajectory_id : String) :
    List FeedbackEvent :=
  events.filter fun e => decide (e.tid = trajectory_id)

/-- The per-trajectory blend of `compute_rewards`:
`cfg.alpha * r_ruler + cfg.beta * r_human + cfg.gamma * r_online`. -/
def reward_for (cfg : RewardMixConfig) (events : List FeedbackEvent)
    (trajectory_id : String) : ℚ :=
  let evs := bucketFor events trajectory_id
  cfg.alpha * ruler_score evs + cfg.beta * human_score evs trajectory_id +
    cfg.gamma * online_score evs

/-- `compute_rewards(trajectory_ids, cfg)`: one entry per requested id (dict
keys deduplicate, keeping first occurrence), each the weighted blend of that
trajectory's bucketed events. -/
def compute_rewards (cfg : RewardMixConfig) (events : List FeedbackEvent)
    (trajectory_ids : List String) : List (String × ℚ) :=
  trajectory_ids.eraseDups.map fun tid => (tid, reward_for cfg events tid)

/-! ## Trajectory persistence — `scripts/pipeline.py`

`_traj_to_dict` / `_traj_from_dict` translate a trajectory to and from the
JSON-line batch record.  JSON values are modelled by `JVal`. -/

inductive JVal
  | jNull
  | jBool (b : Bool)
  | jNum (q : ℚ)
  | jStr (s : String)
  | jList (xs : List JVal)
  | jObj (fields : List (String × JVal))

/-- Python `str(v)` on a JSON value (used by `_traj_from_dict` through
`str(fe.get(...))`; only the string case is exercised by typed inputs). -/
def JVal.pyStr : JVal → String
  | .jStr s => s
  | .jNull => "None"
  | .jBool b => if b then "True" else "False"
  | .jNum _ => "<number>"
  | .jList _ => "<list>"
  | .jObj _ => "<dict>"

/-- Extract a string list from a JSON list the way pydantic validates
`citations: list[str]` — any non-string element raises (modelled as `none`). -/
def allStrings : List JVal → Option (List String)
  | [] => some []
  | .jStr s :: rest => (allStrings rest).map fun l => s :: l
  | _ :: _ => none

/-- `FinalEmail` (pydantic model from `core/data_models.py`). -/
structure FinalEmail where
  subject : String
  body : String
  citations : List String
deriving DecidableEq

/-- The trajectory state the persistence helpers read: conversation items
(already JSON-able here), `metadata`, `reward` and the optional
`final_email`. -/
structure ProjectTrajectory where
  messages_and_choices : List JVal
  metadata : List (String × JVal)
  reward : ℚ
  final_email : Option FinalEmail

/-- Serialization of one conversation item in `_traj_to_dict`: dicts pass
through unchanged; anything else falls back to its string form (pydantic
choice objects, which `model_dump` to dicts, are outside this embedding). -/
def serialItem : JVal → JVal
  | .jObj fields => .jObj fields
  | v => .jStr v.pyStr

/-- `_traj_to_dict(t)`: the persisted record, with `final_email` either
`None` or the `subject`/`body`/`citations` dict. -/
def traj_to_dict (t : ProjectTrajectory) : List (String × JVal) :=
  [("messages_and_choices", .jList (t.messages_and_choices.map serialItem)),
   ("metadata", .jObj t.metadata),
   ("reward", .jNum t.reward),
   ("final_email",
     match t.final_email with
     | none => .jNull
     | some fe =>
         .jObj [("subject", .jStr fe.subject), ("body", .jStr fe.body),
                ("citations", .jList (fe.citations.map .jStr))])]

/-- `_traj_from_dict(d)`: rebuild the trajectory. `float(d.get("reward", 0.0))`,
`dict(d.get("metadata", {}))` and `list(d.get("messages_and_choices", []))`
raise on ill-typed values (modelled as `none`); the `final_email` block is
wrapped in `try/except` in the source, so its failures yield `final_email = None`
rather than an error. -/
def traj_from_dict (d : List (String × JVal)) : Option ProjectTrajectory :=
  match (alookup d "reward").getD (.jNum 0) with
  | .jNum rw =>
      match (alookup d "metadata").getD (.jObj []) with
      | .jObj md =>
          match (alookup d "messages_and_choices").getD (.jList []) with
          | .jList ms =>
              let fe : Option FinalEmail :=
                match alookup d "final_email" with
                | some (.jObj f) =>
                    match (alookup f "citations").getD (.jList []) with
                    | .jList cits =>
                        match allStrings cits with
                        | some cs =>
                            some ⟨((alookup f "subject").getD (.jStr "")).pyStr,
                                  ((alookup f "body").getD (.jStr "")).pyStr, cs⟩
                        | none => none
                    | _ => none
                | _ => none
              some ⟨ms, md, rw, fe⟩
          | _ => none
      | _ => none
  | _ => none

/-! ## Rollout engine — `training/rollout.py` with `training/tools.py`

Parsed JSON tool arguments and tool results are `PyVal`s.  The language
model is a collaborator: a stub mapping the 1-based turn index to the
response message (the engine makes exactly one model call per loop turn). -/

inductive PyVal
  | vStr (s : String)
  | vInt (n : Int)
  | vBool (b : Bool)
  | vList (elems : List PyVal)
  | vDict (fields : List (String × PyVal))

/-- Python `str(v)`; claimed behaviour only ever renders strings (citation
ids), the other renderings are placeholders. -/
def strOfPyVal : PyVal → String
  | .vStr s => s
  | .vInt n => toString n
  | .vBool b => if b then "True" else "False"
  | .vList _ => "<list>"
  | .vDict _ => "<dict>"

/-- Python truthiness of a JSON value (`if item.get("node_id"):`). -/
def pyTruthy : PyVal → Bool
  | .vStr s => !(s == "")
  | .vInt n => !(n == 0)
  | .vBool b => b
  | .vList l => !l.isEmpty
  | .vDict f => !f.isEmpty

/-- pydantic validation of `citations: list[str]`: every element must be a
string, otherwise construction raises. -/
def allStringsP : List PyVal → Option (List String)
  | [] => some []
  | .vStr s :: rest => (allStringsP rest).map fun l => s :: l
  | _ :: _ => none

/-- One requested tool call: the function name plus the parsed JSON
arguments (`none` models `json.loads` failure, degraded to `{}`). -/
structure ToolCall where
  name : String
  arguments : Option (List (String × PyVal))

/-- One model response message: the list of requested tool calls. -/
structure ModelResponse where
  tool_calls : List ToolCall

/-- `Prospect` fields the rollout reads (`core/data_models.py`). -/
structure Prospect where
  prospect_id : String
  name : String
  title : Option String
  company : Option String
  industry : Option String

/-- `Scenario` fields the rollout reads (`core/data_models.py`). -/
structure Scenario where
  prospect : Prospect
  goal : String
  seed_nodes : List String

/-- Conversation items accumulated in `traj.messages_and_choices`. Tool
results are kept structured where the source stringifies them; no claim
observes message text. -/
inductive Msg
  | system (content : String)
  | user (content : String)
  | assistant (response : ModelResponse)
  | tool (name : String) (result : PyVal)

/-- Mutable loop state of `rollout`: transcript, last composed subject/body
and the accumulated citation id set (duplicate-free list). -/
structure RolloutState where
  messages : List Msg
  subject_text : Option String
  body_text : Option String
  citation_ids : List String

/-- The completed trajectory as the claims observe it: transcript, the
metadata dict set at trajectory creation, the optional final email and the
number of model calls consumed. -/
structure RolloutResult where
  messages : List Msg
  metadata : List (String × JVal)
  final_email : Option FinalEmail
  turns_used : Nat

/-- `MAX_TURNS` from `core/config.py`. -/
def MAX_TURNS : Nat := 5

/-- `compose_subject(directive)` from `training/tools.py`: returns the
directive unchanged. -/
def compose_subject (directive : String) : String := directive

/-- `compose_body(directive, constraints)` from `training/tools.py`: returns
the directive unchanged (constraints only logged). -/
def compose_body (directive : String) (constraints : List (String × String)) :
    String := directive

/-- The keys of `tools_by_name` in `rollout`. -/
def registryNames : List String :=
  ["expand_graph", "get_node_facts", "rank_nodes", "compose_subject",
   "compose_body", "insert_assets", "compliance_check", "brand_tone_check",
   "finalize_email"]

/-- Required keyword parameters of each registered tool (none has a
default), from the tool signatures; `f(**args)` raises `TypeError` when a
required parameter is missing or an unexpected keyword is present. -/
def requiredParams : String → List String
  | "expand_graph" => ["seed_nodes", "goal", "k"]
  | "get_node_facts" => ["node_id"]
  | "rank_nodes" => ["query", "center", "radius"]
  | "compose_subject" => ["directive"]
  | "compose_body" => ["directive", "constraints"]
  | "insert_assets" => ["asset_type"]
  | "compliance_check" => ["text"]
  | "brand_tone_check" => ["text"]
  | _ => []

/-- Whether `f(**args)` binds: every required parameter present and no
unexpected keyword. -/
def bindingOk (required : List String) (args : List (String × PyVal)) : Bool :=
  required.all (fun p => (alookup args p).isSome) &&
    args.all (fun kv => decide (kv.1 ∈ required))

/-- A string list argument (`seed_nodes` / `center`); non-string elements or
non-list values raise inside the tool body (modelled as error). -/
def asStrList : PyVal → Option (List String)
  | .vList l => allStringsP l
  | _ => none

/-- `tools_by_name[name](**args)` for the non-finalize tools: keyword
binding then the tool body. Any raised exception is an `Except.error`
(nothing in `rollout` catches it). -/
def execTool (g : KnowledgeGraphStore) (scores : List (String × ℚ))
    (name : String) (args : List (String × PyVal)) : Except String PyVal :=
  if !(bindingOk (requiredParams name) args) then
    .error ("TypeError: bad arguments for " ++ name)
  else if name = "compose_subject" then
    .ok ((alookup args "directive").getD (.vStr ""))
  else if name = "compose_body" then
    .ok ((alookup args "directive").getD (.vStr ""))
  else if name = "insert_assets" then .ok (.vList [])
  else if name = "compliance_check" then
    .ok (.vDict [("ok", .vBool true), ("tip", .vStr "")])
  else if name = "brand_tone_check" then
    .ok (.vDict [("ok", .vBool true), ("tip", .vStr "")])
  else if name = "get_node_facts" then
    match alookup args "node_id" with
    | some (.vStr s) =>
        match g.get_node_facts s with
        | some nc => .ok (.vDict [("node_id", .vStr nc.1), ("content", .vStr nc.2)])
        | none => .ok (.vDict [])
    | _ => .ok (.vDict [])
  else if name = "expand_graph" then
    match alookup args "seed_nodes", alookup args "goal", alookup args "k" with
    | some seedsV, some goalV, some (.vInt k) =>
        match asStrList seedsV with
        | some seeds =>
            .ok (.vList ((g.expand seeds (strOfPyVal goalV) k.toNat).map
              fun nc => .vDict [("node_id", .vStr nc.1), ("content", .vStr nc.2)]))
        | none => .error "TypeError: expand_graph seed_nodes"
    | _, _, _ => .error "TypeError: expand_graph arguments"
  else if name = "rank_nodes" then
    match alookup args "center", alookup args "radius" with
    | some centerV, some (.vInt radius) =>
        match asStrList centerV with
        | some center =>
            .ok (.vList ((rank_nodes scores
              (strOfPyVal ((alookup args "query").getD (.vStr "")))
              (g.subgraph center radius.toNat).1).map .vStr))
        | none => .error "TypeError: rank_nodes center"
    | _, _ => .error "TypeError: rank_nodes arguments"
  else .error ("TypeError: " ++ name)

/-- Encoding of a `FinalEmail` result for the appended tool message. -/
def pyOfEmail (fe : FinalEmail) : PyVal :=
  .vDict [("subject", .vStr fe.subject), ("body", .vStr fe.body),
          ("citations", .vList (fe.citations.map .vStr))]

/-- The `for call in msg.tool_calls` loop of `rollout`: unknown names are
skipped; `finalize_email` is special-cased (defaults filled from the loop
state) and returns immediately; other tool results update the draft
subject/body and the citation set.  A raised tool exception aborts with
`Except.error`. -/
def processCalls (g : KnowledgeGraphStore) (scores : List (String × ℚ))
    (sc : Scenario) :
    RolloutState → List ToolCall → Except String (RolloutState × Option FinalEmail)
  | st, [] => .ok (st, none)
  | st, call :: rest =>
      if call.name ∈ registryNames then
        let args := call.arguments.getD []
        if call.name = "finalize_email" then
          let dir_txt := "Goal: " ++ sc.goal
          let call_subject := (alookup args "subject").getD
            (.vStr (st.subject_text.getD (compose_subject dir_txt)))
          let call_body := (alookup args "body").getD
            (.vStr (st.body_text.getD (compose_body dir_txt
              [("name", sc.prospect.name),
               ("industry", sc.prospect.industry.getD ""),
               ("company", sc.prospect.company.getD "")])))
          let sorted_cits := stableSort (fun a b => decide (a ≤ b)) st.citation_ids
          let raw_citations := (alookup args "citations").getD
            (.vList (sorted_cits.map .vStr))
          let call_citations : List PyVal :=
            match raw_citations with
            | .vList l => l
            | _ => sorted_cits.map .vStr
          match call_subject, call_body, allStringsP call_citations with
          | .vStr s, .vStr b, some cs =>
              let email : FinalEmail := ⟨s, b, cs⟩
              .ok ({ st with
                      messages := st.messages ++ [.tool "finalize_email" (pyOfEmail email)] },
                   some email)
          | _, _, _ => .error "ValidationError: finalize_email"
        else
          match execTool g scores call.name args with
          | .error e => .error e
          | .ok result =>
              let st := { st with messages := st.messages ++ [.tool call.name result] }
              let st :=
                if call.name = "compose_subject" then
                  match result with
                  | .vStr s => { st with subject_text := some s }
                  | _ => st
                else if call.name = "compose_body" then
                  match result with
                  | .vStr s => { st with body_text := some s }
                  | _ => st
                else if call.name = "get_node_facts" then
                  match alookup args "node_id" with
                  | some v => { st with citation_ids := listInsert (strOfPyVal v) st.citation_ids }
                  | none => st
                else if call.name = "expand_graph" then
                  match result with
                  | .vList items =>
                      let addItem := fun (cids : List String) (item : PyVal) =>
                        match item with
                        | .vDict fields =>
                            match alookup fields "node_id" with
                            | some v =>
                                if pyTruthy v then listInsert (strOfPyVal v) cids
                                else cids
                            | none => cids
                        | _ => cids
                      { st with citation_ids := items.foldl addItem st.citation_ids }
                  | _ => st
                else st
              processCalls g scores sc st rest
      else processCalls g scores sc st rest

/-- The nudge appended when the model response carries no tool call. -/
def nudgeNoToolsText : String :=
  "Please use the provided tools (expand_graph/get_node_facts/compose_*) and then call finalize_email(subject, body, citations)."

/-- The nudge appended when a drafted subject and body exist without a
finalize call. -/
def nudgeFinalizeText : String :=
  "You have drafted the subject and body. Call finalize_email(subject, body, citations) now."

/-- The single post-loop nudge appended when the turn budget is exhausted
without finalize. -/
def finalNudgeText : String :=
  "End the task by calling finalize_email(subject, body, citations)."

/-- The `for turn_idx in range(1, MAX_TURNS + 1)` loop of `rollout`, with an
explicit count of model calls already made and the remaining budget. When
the budget reaches zero without a finalize, the source appends one final
nudge message and returns the trajectory with `final_email` still unset. -/
def rolloutLoop (g : KnowledgeGraphStore) (scores : List (String × ℚ))
    (sc : Scenario) (model : Nat → ModelResponse) :
    Nat → Nat → RolloutState → Except String (RolloutState × Option FinalEmail × Nat)
  | turns_done, 0, st =>
      .ok ({ st with messages := st.messages ++ [.user finalNudgeText] }, none, turns_done)
  | turns_done, fuel + 1, st =>
      let response := model (turns_done + 1)
      let st := { st with messages := st.messages ++ [.assistant response] }
      if response.tool_calls.isEmpty then
        rolloutLoop g scores sc model (turns_done + 1) fuel
          { st with messages := st.messages ++ [.user nudgeNoToolsText] }
      else
        match processCalls g scores sc st response.tool_calls with
        | .error e => .error e
        | .ok (st', some email) => .ok (st', some email, turns_done + 1)
        | .ok (st', none) =>
            let ready : Bool :=
              match st'.subject_text, st'.body_text with
              | some s, some b => !(s == "") && !(b == "")
              | _, _ => false
            if ready then
              rolloutLoop g scores sc model (turns_done + 1) fuel
                { st' with messages := st'.messages ++ [.user nudgeFinalizeText] }
            else rolloutLoop g scores sc model (turns_done + 1) fuel st'

/-- `SYSTEM_PROMPT` from `core/prompts.py`, abbreviated: no claim observes
message text, only the transcript structure. -/
def SYSTEM_PROMPT : String :=
  "Persona: an experienced salesperson. Task: write a personalized cold email grounded in the knowledge graph and finish by calling finalize_email."

/-- The system preamble built at rollout start (scenario context). -/
def systemPreamble (sc : Scenario) : String :=
  SYSTEM_PROMPT ++ "\n\nProspect: " ++ sc.prospect.name ++ " (" ++
    sc.prospect.title.getD "" ++ ") at " ++ sc.prospect.company.getD "" ++
    " in " ++ sc.prospect.industry.getD "" ++ "\nGoal: " ++ sc.goal ++
    "\nStarting nodes: " ++ String.intercalate ", " sc.seed_nodes

/-- The fixed first user message of every rollout. -/
def initialUserText : String :=
  "Generate a grounded email by calling tools. End by calling finalize_email."

/-- The loop state at rollout start: the two seed transcript messages, no
drafts, no citations. -/
def rolloutInit (sc : Scenario) : RolloutState :=
  { messages := [.system (systemPreamble sc), .user initialUserText],
    subject_text := none, body_text := none, citation_ids := [] }

/-- `rollout(model, scenario_input)`: build the initial transcript and
metadata, run the turn loop, and return the completed trajectory.  Only a
raised tool exception escapes. -/
def rollout (g : KnowledgeGraphStore) (scores : List (String × ℚ))
    (step : Int) (sc : Scenario) (model : Nat → ModelResponse) :
    Except String RolloutResult :=
  match rolloutLoop g scores sc model 0 MAX_TURNS (rolloutInit sc) with
  | .error e => .error e
  | .ok (st, email, turns) =>
      .ok { messages := st.messages,
            metadata := [("step", .jNum (step : ℚ)),
                         ("prospect_id", .jStr sc.prospect.prospect_id)],
            final_email := email,
            turns_used := turns }

/-- Observable summary of a rollout outcome: the final email and the
`auto_finalized` metadata entry (`none` when the rollout raised). -/
def resultSummary (e : Except String RolloutResult) :
    Option (Option FinalEmail × Option JVal) :=
  match e with
  | .ok r => some (r.final_email, alookup r.metadata "auto_finalized")
  | .error _ => none

/-! ## Concrete instances used by witnesses and counterexamples -/

/-- Two-node store `A → B`. -/
def gEx : KnowledgeGraphStore :=
  { nodes := [("A", "a-content"), ("B", "b-content")],
    out_edges := [("A", [("B", "rel")]), ("B", [])],
    nodes_nodup := by decide }

/-- A concrete scenario. -/
def scEx : Scenario :=
  { prospect := { prospect_id := "p1", name := "Dana", title := some "CTO",
                  company := some "Acme", industry := some "SaaS" },
    goal := "book a call", seed_nodes := ["A"] }

/-- A model stub that never requests a tool call. -/
def neverToolModel : Nat → ModelResponse := fun _ => { tool_calls := [] }

/-- A model stub that calls `finalize_email("S", "B", ["n1"])` on turn 1. -/
def finalizeModel : Nat → ModelResponse := fun _ =>
  { tool_calls := [{ name := "finalize_email",
                     arguments := some [("subject", .vStr "S"), ("body", .vStr "B"),
                                        ("citations", .vList [.vStr "n1"])] }] }

/-- A model stub whose first call is `compose_subject` with unparseable
arguments: the parse failure degrades to `{}`, and binding `compose_subject()`
without its required `directive` raises `TypeError`. -/
def crashToolModel : Nat → ModelResponse := fun _ =>
  { tool_calls := [{ name := "compose_subject", arguments := none }] }

/-! ## Helper lemmas -/

theorem alookup_ainsert {α : Type} (m : List (String × α)) (key k : String) (v : α) :
    alookup (ainsert m key v) k = if key = k then some v else alookup m k := by
  induction m with
  | nil => simp [ainsert, alookup]
  | cons p rest ih =>
      by_cases hp : p.1 = key
      · simp only [ainsert, if_pos hp, alookup]
        by_cases hk : key = k
        · simp [hk]
        · have hpk : ¬ p.1 = k := by rw [hp]; exact hk
          simp [hk, hpk, alookup]
      · simp only [ainsert, if_neg hp, alookup]
        by_cases hpk : p.1 = k
        · have : ¬ key = k := fun h => hp (by rw [hpk, h])
          simp [hpk, this]
        · simp [hpk, ih]

theorem alookup_update_not_mem (m : List (String × ℚ)) (ids : List String)
    (r : ℚ) (nid : String) (h : nid ∉ ids) :
    alookup (update_from_trajectory m ids r) nid = alookup m nid := by
  induction ids generalizing m with
  | nil => simp [update_from_trajectory]
  | cons i rest ih =>
      have hne : i ≠ nid := fun he => h (by simp [he])
      have hrest : nid ∉ rest := fun hr => h (List.mem_cons_of_mem _ hr)
      have step : update_from_trajectory m (i :: rest) r
          = update_from_trajectory (ainsert m i (emaUpdate (scoreOf m i) r)) rest r := by
        simp [update_from_trajectory]
      rw [step, ih _ hrest, alookup_ainsert, if_neg hne]

theorem alookup_update_isSome (m : List (String × ℚ)) (ids : List String)
    (r : ℚ) (k : String) (h : (alookup m k).isSome) :
    (alookup (update_from_trajectory m ids r) k).isSome := by
  induction ids generalizing m with
  | nil => simpa [update_from_trajectory] using h
  | cons i rest ih =>
      have step : update_from_trajectory m (i :: rest) r
          = update_from_trajectory (ainsert m i (emaUpdate (scoreOf m i) r)) rest r := by
        simp [update_from_trajectory]
      rw [step]
      apply ih
      rw [alookup_ainsert]
      by_cases hik : i = k
      · simp [hik]
      · simpa [hik] using h

theorem emaUpdate_nonneg (s r : ℚ) : 0 ≤ emaUpdate s r := le_max_left _ _

theorem emaUpdate_le_one (s r : ℚ) : emaUpdate s r ≤ 1 :=
  max_le (by norm_num) (min_le_left _ _)

theorem emaUpdate_eq_of_mem (s r : ℚ) (hs0 : 0 ≤ s) (hs1 : s ≤ 1)
    (hr0 : 0 ≤ r) (hr1 : r ≤ 1) : emaUpdate s r = s * 0.9 + r * 0.1 := by
  have h0 : (0 : ℚ) ≤ s * 0.9 + r * 0.1 := by positivity
  have h1 : s * 0.9 + r * 0.1 ≤ 1 := by nlinarith
  rw [emaUpdate, min_eq_right h1, max_eq_right h0]

theorem emaUpdate_contraction (s r : ℚ) (hs0 : 0 ≤ s) (hs1 : s ≤ 1)
    (hr0 : 0 ≤ r) (hr1 : r ≤ 1) :
    |emaUpdate s r - r| = 0.9 * |s - r| := by
  rw [emaUpdate_eq_of_mem s r hs0 hs1 hr0 hr1]
  have h : s * 0.9 + r * 0.1 - r = 0.9 * (s - r) := by ring
  rw [h, abs_mul, abs_of_nonneg (by norm_num : (0:ℚ) ≤ 0.9)]

theorem emaIter_mem (r : ℚ) (hr0 : 0 ≤ r) (hr1 : r ≤ 1) (s : ℚ)
    (hs0 : 0 ≤ s) (hs1 : s ≤ 1) (n : ℕ) :
    0 ≤ (fun x => emaUpdate x r)^[n] s ∧ (fun x => emaUpdate x r)^[n] s ≤ 1 := by
  induction n with
  | zero => exact ⟨hs0, hs1⟩
  | succ n ih =>
      rw [Function.iterate_succ_apply']
      exact ⟨emaUpdate_nonneg _ _, emaUpdate_le_one _ _⟩

theorem emaIter_dist (r : ℚ) (hr0 : 0 ≤ r) (hr1 : r ≤ 1) (s : ℚ)
    (hs0 : 0 ≤ s) (hs1 : s ≤ 1) (n : ℕ) :
    |(fun x => emaUpdate x r)^[n] s - r| = 0.9 ^ n * |s - r| := by
  induction n with
  | zero => simp
  | succ n ih =>
      rw [Function.iterate_succ_apply']
      have hmem := emaIter_mem r hr0 hr1 s hs0 hs1 n
      rw [emaUpdate_contraction _ r hmem.1 hmem.2 hr0 hr1, ih, pow_succ]
      ring

theorem ordInsert_perm {α : Type} (le : α → α → Bool) (a : α) (l : List α) :
    List.Perm (ordInsert le a l) (a :: l) := by
  induction l with
  | nil => simp [ordInsert]
  | cons b t ih =>
      by_cases h : le a b = true
      · simp [ordInsert, h]
      · have hb : le a b = false := by simpa using h
        simp only [ordInsert, hb, Bool.false_eq_true, if_false]
        exact List.Perm.trans (List.Perm.cons b ih) (List.Perm.swap a b t)

theorem stableSort_perm {α : Type} (le : α → α → Bool) (l : List α) :
    List.Perm (stableSort le l) l := by
  induction l with
  | nil => simp [stableSort]
  | cons a t ih =>
      exact List.Perm.trans (ordInsert_perm le a (stableSort le t)) (List.Perm.cons a ih)

theorem mem_ordInsert {α : Type} (le : α → α → Bool) (a x : α) (l : List α) :
    x ∈ ordInsert le a l ↔ x = a ∨ x ∈ l := by
  have := (ordInsert_perm le a l).mem_iff (a := x)
  simpa using this

theorem ordInsert_pairwise {α : Type} (key : α → ℚ) (a : α) (l : List α)
    (hl : l.Pairwise fun x y => key y ≤ key x) :
    (ordInsert (keyLe key) a l).Pairwise fun x y => key y ≤ key x := by
  induction l with
  | nil => simp [ordInsert]
  | cons b t ih =>
      rcases List.pairwise_cons.mp hl with ⟨hb, ht⟩
      by_cases h : key b ≤ key a
      · have hc : keyLe key a b = true := by simp [keyLe, h]
        simp only [ordInsert, hc, if_true]
        refine List.pairwise_cons.mpr ⟨?_, hl⟩
        intro x hx
        rcases List.mem_cons.mp hx with rfl | hx
        · exact h
        · exact le_trans (hb x hx) h
      · have hc : keyLe key a b = false := by simp [keyLe, h]
        simp only [ordInsert, hc, Bool.false_eq_true, if_false]
        refine List.pairwise_cons.mpr ⟨?_, ih ht⟩
        intro x hx
        rcases (mem_ordInsert (keyLe key) a x t).mp hx with rfl | hx
        · exact le_of_lt (lt_of_not_ge h)
        · exact hb x hx

theorem stableSort_pairwise {α : Type} (key : α → ℚ) (l : List α) :
    (stableSort (keyLe key) l).Pairwise fun x y => key y ≤ key x := by
  induction l with
  | nil => simp [stableSort]
  | cons a t ih => exact ordInsert_pairwise key a (stableSort (keyLe key) t) ih

theorem filter_ordInsert_ne {α : Type} (key : α → ℚ) (v : ℚ) (a : α)
    (l : List α) (ha : ¬ key a = v) :
    (ordInsert (keyLe key) a l).filter (fun x => decide (key x = v))
      = l.filter (fun x => decide (key x = v)) := by
  induction l with
  | nil => simp [ordInsert, ha]
  | cons b t ih =>
      by_cases h : keyLe key a b = true
      · simp [ordInsert, h, List.filter_cons, ha]
      · have hc : keyLe key a b = false := by simpa using h
        simp only [ordInsert, hc, Bool.false_eq_true, if_false]
        by_cases hb : key b = v
        · simp [List.filter_cons, hb, ih]
        · simp [List.filter_cons, hb, ih]

theorem filter_ordInsert_eq {α : Type} (key : α → ℚ) (v : ℚ) (a : α)
    (l : List α) (ha : key a = v) :
    (ordInsert (keyLe key) a l).filter (fun x => decide (key x = v))
      = a :: l.filter (fun x => decide (key x = v)) := by
  induction l with
  | nil => simp [ordInsert, ha]
  | cons b t ih =>
      by_cases h : key b ≤ key a
      · have hc : keyLe key a b = true := by simp [keyLe, h]
        simp [ordInsert, hc, List.filter_cons, ha]
      · have hc : keyLe key a b = false := by simp [keyLe, h]
        have hbv : ¬ key b = v := by
          intro hbv
          exact h (by rw [hbv, ← ha])
        simp only [ordInsert, hc, Bool.false_eq_true, if_false]
        simp [List.filter_cons, hbv, ih]

theorem stableSort_filter_key {α : Type} (key : α → ℚ) (v : ℚ) (l : List α) :
    (stableSort (keyLe key) l).filter (fun x => decide (key x = v))
      = l.filter (fun x => decide (key x = v)) := by
  induction l with
  | nil => simp [stableSort]
  | cons a t ih =>
      by_cases ha : key a = v
      · simp only [stableSort]
        rw [filter_ordInsert_eq key v a _ ha, ih, List.filter_cons]
        simp [ha]
      · simp only [stableSort]
        rw [filter_ordInsert_ne key v a _ ha, ih, List.filter_cons]
        simp [ha]

theorem mem_of_alookup_isSome {α : Type} (l : List (String × α)) (key : String)
    (h : (alookup l key).isSome) : key ∈ l.map Prod.fst := by
  induction l with
  | nil => simp [alookup] at h
  | cons p t ih =>
      simp only [alookup] at h
      by_cases hp : p.1 = key
      · simp [hp]
      · rw [if_neg hp] at h
        simp only [List.map_cons, List.mem_cons]
        exact Or.inr (ih h)

theorem padLoop_eq (seen : List String) (k : Nat) :
    ∀ (l results : List (String × String)), results.length < k →
      KnowledgeGraphStore.padLoop seen k results l
        = results ++ (l.filter fun p => decide (p.1 ∉ seen)).take (k - results.length) := by
  intro l
  induction l with
  | nil => intro results h; simp [KnowledgeGraphStore.padLoop]
  | cons p rest ih =>
      intro results h
      by_cases hp : p.1 ∈ seen
      · have hd : decide (p.1 ∉ seen) = false := by simp [hp]
        simp only [KnowledgeGraphStore.padLoop, if_pos hp, List.filter_cons, hd,
          Bool.false_eq_true, if_false]
        exact ih results h
      · have hd : decide (p.1 ∉ seen) = true := by simp [hp]
        simp only [KnowledgeGraphStore.padLoop, if_neg hp, List.filter_cons, hd, if_true]
        by_cases hk : k ≤ (results ++ [p]).length
        · rw [if_pos hk]
          have hk1 : k - results.length = 1 := by
            simp only [List.length_append, List.length_singleton] at hk
            omega
          rw [hk1]
          simp
        · rw [if_neg hk]
          have hlt : (results ++ [p]).length < k := by omega
          rw [ih _ hlt]
          have h1 : (results ++ [p]).length = results.length + 1 := by simp
          rw [h1]
          have h2 : k - results.length = (k - (results.length + 1)) + 1 := by omega
          rw [h2, List.take_succ_cons, List.append_assoc, List.singleton_append]

theorem length_filter_mem_eq (l sub : List String) (hl : l.Nodup)
    (hsub : sub.Nodup) (hss : ∀ x ∈ sub, x ∈ l) :
    (l.filter fun x => decide (x ∈ sub)).length = sub.length := by
  have hperm : List.Perm (l.filter fun x => decide (x ∈ sub)) sub := by
    rw [List.perm_ext_iff_of_nodup (hl.filter _) hsub]
    intro a
    simp only [List.mem_filter, decide_eq_true_eq]
    exact ⟨fun h => h.2, fun h => ⟨hss a h, h⟩⟩
  exact hperm.length_eq

theorem length_filter_not_mem_eq (l sub : List String) (hl : l.Nodup)
    (hsub : sub.Nodup) (hss : ∀ x ∈ sub, x ∈ l) :
    (l.filter fun x => decide (x ∉ sub)).length = l.length - sub.length := by
  have hsum := List.length_eq_length_filter_add (l := l) (fun x => decide (x ∈ sub))
  have hm := length_filter_mem_eq l sub hl hsub hss
  have hcong : (l.filter fun x => !(decide (x ∈ sub))) = l.filter fun x => decide (x ∉ sub) := by
    apply List.filter_congr
    intro a _
    simp
  rw [hcong, hm] at hsum
  omega

theorem expandLoop_inv (g : KnowledgeGraphStore) (k : Nat)
    (seen : List String) (results : List (String × String)) (frontier : List String) :
    (∀ x, x ∈ seen ↔ x ∈ results.map Prod.fst) →
    (results.map Prod.fst).Nodup →
    (∀ x ∈ results.map Prod.fst, x ∈ g.nodes.map Prod.fst) →
    results.length ≤ k →
      (∀ x, x ∈ (g.expandLoop k seen results frontier).2 ↔
          x ∈ (g.expandLoop k seen results frontier).1.map Prod.fst)
      ∧ ((g.expandLoop k seen results frontier).1.map Prod.fst).Nodup
      ∧ (∀ x ∈ (g.expandLoop k seen results frontier).1.map Prod.fst,
          x ∈ g.nodes.map Prod.fst)
      ∧ (g.expandLoop k seen results frontier).1.length ≤ k := by
  induction seen, results, frontier using KnowledgeGraphStore.expandLoop.induct g k with
  | case1 seen results =>
      intro hsr hnd hsub hlen
      simp only [KnowledgeGraphStore.expandLoop]
      exact ⟨hsr, hnd, hsub, hlen⟩
  | case2 seen results nid rest hcap =>
      intro hsr hnd hsub hlen
      simp only [KnowledgeGraphStore.expandLoop, if_pos hcap]
      exact ⟨hsr, hnd, hsub, hlen⟩
  | case3 seen results nid rest hcap hskip ih =>
      intro hsr hnd hsub hlen
      simp only [KnowledgeGraphStore.expandLoop, if_neg hcap, if_pos hskip]
      exact ih hsr hnd hsub hlen
  | case4 seen results nid rest hcap hskip seen' results' frontier' ih =>
      intro hsr hnd hsub hlen
      simp only [KnowledgeGraphStore.expandLoop, if_neg hcap, if_neg hskip]
      rw [not_or, not_not] at hskip
      obtain ⟨hnotseen, hhas⟩ := hskip
      have hnidmem : nid ∈ g.nodes.map Prod.fst :=
        mem_of_alookup_isSome g.nodes nid hhas
      have hnotres : nid ∉ results.map Prod.fst := fun hc => hnotseen ((hsr nid).mpr hc)
      refine ih ?_ ?_ ?_ ?_
      · show ∀ x, x ∈ nid :: seen ↔
            x ∈ (results ++ [(nid, g.content nid)]).map Prod.fst
        intro x
        rw [List.mem_cons, List.map_append, List.mem_append]
        simp only [List.map_cons, List.map_nil, List.mem_singleton]
        rw [hsr x]
        exact or_comm
      · show ((results ++ [(nid, g.content nid)]).map Prod.fst).Nodup
        simp only [List.map_append, List.nodup_append]
        refine ⟨hnd, by simp, ?_⟩
        intro x hx
        simp only [List.map_cons, List.map_nil, List.mem_singleton]
        intro hc
        rw [hc] at hx
        exact hnotres hx
      · show ∀ x ∈ (results ++ [(nid, g.content nid)]).map Prod.fst,
            x ∈ g.nodes.map Prod.fst
        intro x hx
        simp only [List.map_append, List.mem_append] at hx
        rcases hx with hx | hx
        · exact hsub x hx
        · simp only [List.map_cons, List.map_nil, List.mem_singleton] at hx
          rw [hx]
          exact hnidmem
      · show (results ++ [(nid, g.content nid)]).length ≤ k
        simp only [List.length_append, List.length_singleton]
        omega

theorem processCalls_finalize_explicit (g : KnowledgeGraphStore)
    (scores : List (String × ℚ)) (sc : Scenario) (st : RolloutState)
    (s b c : String) :
    processCalls g scores sc st
      [{ name := "finalize_email",
         arguments := some [("subject", .vStr s), ("body", .vStr b),
                            ("citations", .vList [.vStr c])] }]
      = .ok ({ st with messages := st.messages ++
                 [.tool "finalize_email" (pyOfEmail ⟨s, b, [c]⟩)] },
             some ⟨s, b, [c]⟩) := by
  simp [processCalls, registryNames, alookup, allStringsP]

theorem processCalls_error (g : KnowledgeGraphStore)
    (scores : List (String × ℚ)) (sc : Scenario) (st : RolloutState)
    (call : ToolCall) (rest : List ToolCall) (e : String)
    (hmem : call.name ∈ registryNames) (hnf : ¬ call.name = "finalize_email")
    (herr : execTool g scores call.name (call.arguments.getD []) = .error e) :
    processCalls g scores sc st (call :: rest) = .error e := by
  simp only [processCalls, if_pos hmem, if_neg hnf, herr]

theorem rolloutLoop_succ_processed (g : KnowledgeGraphStore)
    (scores : List (String × ℚ)) (sc : Scenario) (model : Nat → ModelResponse)
    (td fuel : Nat) (st st' : RolloutState) (email : FinalEmail)
    (hne : (model (td + 1)).tool_calls ≠ [])
    (hp : processCalls g scores sc
        { st with messages := st.messages ++ [.assistant (model (td + 1))] }
        (model (td + 1)).tool_calls = .ok (st', some email)) :
    rolloutLoop g scores sc model td (fuel + 1) st = .ok (st', some email, td + 1) := by
  have hie : (model (td + 1)).tool_calls.isEmpty = false := by
    cases hcalls : (model (td + 1)).tool_calls with
    | nil => exact absurd hcalls hne
    | cons a l => rfl
  simp only [rolloutLoop, hie, Bool.false_eq_true, if_false, hp]

theorem rolloutLoop_succ_error (g : KnowledgeGraphStore)
    (scores : List (String × ℚ)) (sc : Scenario) (model : Nat → ModelResponse)
    (td fuel : Nat) (st : RolloutState) (e : String)
    (hne : (model (td + 1)).tool_calls ≠ [])
    (hp : processCalls g scores sc
        { st with messages := st.messages ++ [.assistant (model (td + 1))] }
        (model (td + 1)).tool_calls = .error e) :
    rolloutLoop g scores sc model td (fuel + 1) st = .error e := by
  have hie : (model (td + 1)).tool_calls.isEmpty = false := by
    cases hcalls : (model (td + 1)).tool_calls with
    | nil => exact absurd hcalls hne
    | cons a l => rfl
  simp only [rolloutLoop, hie, Bool.false_eq_true, if_false, hp]

theorem rolloutLoop_no_tools (g : KnowledgeGraphStore)
    (scores : List (String × ℚ)) (sc : Scenario) (model : Nat → ModelResponse)
    (h : ∀ i, (model i).tool_calls = []) (fuel : Nat) :
    ∀ (td : Nat) (st : RolloutState),
      ∃ st', rolloutLoop g scores sc model td fuel st = .ok (st', none, td + fuel) := by
  induction fuel with
  | zero => intro td st; exact ⟨_, rfl⟩
  | succ n ih =>
      intro td st
      have hie : (model (td + 1)).tool_calls.isEmpty = true := by
        rw [h (td + 1)]; rfl
      have hstep : rolloutLoop g scores sc model td (n + 1) st
          = rolloutLoop g scores sc model (td + 1) n
              { st with messages := (st.messages ++ [.assistant (model (td + 1))])
                  ++ [.user nudgeNoToolsText] } := by
        simp only [rolloutLoop, hie, if_true]
      rw [hstep]
      obtain ⟨st', h'⟩ := ih (td + 1) _
      refine ⟨st', ?_⟩
      rw [h']
      have : td + 1 + n = td + (n + 1) := by omega
      rw [this]

/-! ## Claim theorems -/

/-- C1 counterexample: with a model stub that never calls a tool, the rollout
terminates with NO final result and no `auto_finalized` metadata entry — it
does not enter an `AUTO_FINALIZED` state with a synthesized email. -/
theorem C1_counterexample :
    resultSummary (rollout gEx [] 0 scEx neverToolModel) = some (none, none)
    ∧ ¬ (∃ r, rollout gEx [] 0 scEx neverToolModel = .ok r
          ∧ r.final_email ≠ none
          ∧ alookup r.metadata "auto_finalized" = some (.jBool true)) := by
  have hs : resultSummary (rollout gEx [] 0 scEx neverToolModel)
      = some (none, none) := rfl
  refine ⟨hs, ?_⟩
  rintro ⟨r, hr, hne, hmeta⟩
  rw [hr] at hs
  simp only [resultSummary, Option.some.injEq, Prod.mk.injEq] at hs
  exact hne hs.1

/-- C1 (amended): if the model responds without tool calls for all turns,
the turn budget is exhausted and the engine returns the trajectory of all
`MAX_TURNS` model calls with `final_email` still `None` and no
`auto_finalized` metadata — the source only appends one last nudge instead
of auto-finalizing. -/
theorem C1_budget_exhaustion_no_autofinalize (g : KnowledgeGraphStore)
    (scores : List (String × ℚ)) (step : Int) (sc : Scenario)
    (model : Nat → ModelResponse) (h : ∀ i, (model i).tool_calls = []) :
    ∃ r, rollout g scores step sc model = .ok r
      ∧ r.final_email = none
      ∧ alookup r.metadata "auto_finalized" = none
      ∧ r.turns_used = MAX_TURNS := by
  obtain ⟨st', hloop⟩ := rolloutLoop_no_tools g scores sc model h MAX_TURNS 0 (rolloutInit sc)
  refine ⟨{ messages := st'.messages,
            metadata := [("step", .jNum (step : ℚ)),
                         ("prospect_id", .jStr sc.prospect.prospect_id)],
            final_email := none, turns_used := 0 + MAX_TURNS },
          ?_, rfl, by simp [alookup], by simp⟩
  simp only [rollout, hloop]

/-- Witness for the amended C1: the never-calling stub on the concrete store
and scenario. -/
theorem C1_budget_exhaustion_witness :
    (∀ i, (neverToolModel i).tool_calls = [])
    ∧ ∃ r, rollout gEx [] 0 scEx neverToolModel = .ok r
        ∧ r.final_email = none
        ∧ alookup r.metadata "auto_finalized" = none
        ∧ r.turns_used = MAX_TURNS :=
  ⟨fun _ => rfl,
   C1_budget_exhaustion_no_autofinalize gEx [] 0 scEx neverToolModel fun _ => rfl⟩

/-- C2 counterexample: a `compose_subject` call with unparseable arguments
degrades to an empty-argument call, whose keyword binding raises
`TypeError`; nothing catches it, so the rollout terminates with the
exception instead of continuing to a terminal state. -/
theorem C2_counterexample :
    rollout gEx [] 0 scEx crashToolModel
      = .error "TypeError: bad arguments for compose_subject" := rfl

/-- C2 (amended): an argument parse failure degrades to an empty-argument
call (`arguments = none` behaves as `{}`), but an exception raised while
executing a dispatched non-finalize tool propagates and terminates the
rollout with that error. -/
theorem C2_tool_error_propagates (g : KnowledgeGraphStore)
    (scores : List (String × ℚ)) (step : Int) (sc : Scenario)
    (model : Nat → ModelResponse) (call : ToolCall) (e : String)
    (hmem : call.name ∈ registryNames) (hnf : ¬ call.name = "finalize_email")
    (h1 : (model 1).tool_calls = [call])
    (herr : execTool g scores call.name (call.arguments.getD []) = .error e) :
    rollout g scores step sc model = .error e
    ∧ (∀ st nm rest, processCalls g scores sc st
          ({ name := nm, arguments := none } :: rest)
        = processCalls g scores sc st
          ({ name := nm, arguments := some [] } :: rest)) := by
  constructor
  · have hne : (model 1).tool_calls ≠ [] := by rw [h1]; simp
    have hp : processCalls g scores sc
        { rolloutInit sc with
            messages := (rolloutInit sc).messages ++ [.assistant (model 1)] }
        (model 1).tool_calls = .error e := by
      rw [h1]
      exact processCalls_error g scores sc _ call [] e hmem hnf herr
    have hloop : rolloutLoop g scores sc model 0 MAX_TURNS (rolloutInit sc)
        = .error e := by
      rw [show MAX_TURNS = 4 + 1 from rfl]
      exact rolloutLoop_succ_error g scores sc model 0 4 _ e hne hp
    simp only [rollout, hloop]
  · intro st nm rest
    simp only [processCalls, Option.getD]

/-- Witness for the amended C2: the crashing `compose_subject` stub on the
concrete store and scenario. -/
theorem C2_tool_error_propagates_witness :
    ((⟨"compose_subject", none⟩ : ToolCall).name ∈ registryNames)
    ∧ rollout gEx [] 0 scEx crashToolModel
        = .error "TypeError: bad arguments for compose_subject" :=
  ⟨by decide,
   (C2_tool_error_propagates gEx [] 0 scEx crashToolModel
      ⟨"compose_subject", none⟩ "TypeError: bad arguments for compose_subject"
      (by decide) (by decide) rfl rfl).1⟩

/-- C4: if on turn 1 the model responds with a finalize call carrying an
explicit subject, body and one-element citation list, the engine returns
immediately after that single model call (`turns_used = 1`) with exactly
that subject, body and citation set as the final result. -/
theorem C4_finalize_first_turn (g : KnowledgeGraphStore)
    (scores : List (String × ℚ)) (step : Int) (sc : Scenario)
    (model : Nat → ModelResponse) (s b c : String)
    (h1 : (model 1).tool_calls
        = [{ name := "finalize_email",
             arguments := some [("subject", .vStr s), ("body", .vStr b),
                                ("citations", .vList [.vStr c])] }]) :
    ∃ r, rollout g scores step sc model = .ok r
      ∧ r.final_email = some ⟨s, b, [c]⟩ ∧ r.turns_used = 1 := by
  have hne : (model 1).tool_calls ≠ [] := by rw [h1]; simp
  have hp : processCalls g scores sc
      { rolloutInit sc with
          messages := (rolloutInit sc).messages ++ [.assistant (model 1)] }
      (model 1).tool_calls
      = .ok ({ rolloutInit sc with
                 messages := ((rolloutInit sc).messages ++ [.assistant (model 1)])
                   ++ [.tool "finalize_email" (pyOfEmail ⟨s, b, [c]⟩)] },
             some ⟨s, b, [c]⟩) := by
    rw [h1]
    exact processCalls_finalize_explicit g scores sc _ s b c
  have hloop : rolloutLoop g scores sc model 0 MAX_TURNS (rolloutInit sc)
      = .ok ({ rolloutInit sc with
                 messages := ((rolloutInit sc).messages ++ [.assistant (model 1)])
                   ++ [.tool "finalize_email" (pyOfEmail ⟨s, b, [c]⟩)] },
             some ⟨s, b, [c]⟩, 1) := by
    rw [show MAX_TURNS = 4 + 1 from rfl]
    exact rolloutLoop_succ_processed g scores sc model 0 4 _ _ _ hne hp
  refine ⟨{ messages := ((rolloutInit sc).messages ++ [.assistant (model 1)])
              ++ [.tool "finalize_email" (pyOfEmail ⟨s, b, [c]⟩)],
            metadata := [("step", .jNum (step : ℚ)),
                         ("prospect_id", .jStr sc.prospect.prospect_id)],
            final_email := some ⟨s, b, [c]⟩, turns_used := 1 },
          ?_, rfl, rfl⟩
  simp only [rollout, hloop]

/-- Witness for C4: the turn-1 finalize stub on the concrete store and
scenario. -/
theorem C4_finalize_first_turn_witness :
    ((finalizeModel 1).tool_calls
        = [{ name := "finalize_email",
             arguments := some [("subject", .vStr "S"), ("body", .vStr "B"),
                                ("citations", .vList [.vStr "n1"])] }])
    ∧ ∃ r, rollout gEx [] 0 scEx finalizeModel = .ok r
        ∧ r.final_email = some ⟨"S", "B", ["n1"]⟩ ∧ r.turns_used = 1 :=
  ⟨rfl, C4_finalize_first_turn gEx [] 0 scEx finalizeModel "S" "B" "n1" rfl⟩

/-- C5: one `update_from_trajectory` call on `[n]` sets the score of `n` to
`clamp(0, 1, 0.9 * score + 0.1 * reward)` (unseen nodes start at `0.0` via
the `scoreOf` default); every `emaUpdate` value lies in `[0, 1]`; while the
clamp is inactive (score and reward in `[0, 1]`) the distance to the reward
contracts by exactly `0.9` per update, hence after `n` repeats it is
`0.9 ^ n` times the initial distance and the score converges to the
reward. -/
theorem C5_score_update_ema (m : List (String × ℚ)) (nid : String) (r : ℚ)
    (hr0 : 0 ≤ r) (hr1 : r ≤ 1)
    (hs0 : 0 ≤ scoreOf m nid) (hs1 : scoreOf m nid ≤ 1) :
    scoreOf (update_from_trajectory m [nid] r) nid
        = max 0 (min 1 (scoreOf m nid * 0.9 + r * 0.1))
    ∧ (∀ s : ℚ, 0 ≤ emaUpdate s r ∧ emaUpdate s r ≤ 1)
    ∧ (∀ s : ℚ, 0 ≤ s → s ≤ 1 → |emaUpdate s r - r| = 0.9 * |s - r|)
    ∧ (∀ n : ℕ, |(fun s => emaUpdate s r)^[n] (scoreOf m nid) - r|
          = 0.9 ^ n * |scoreOf m nid - r|)
    ∧ (∀ ε : ℚ, 0 < ε → ∃ N : ℕ, ∀ n, N ≤ n →
          |(fun s => emaUpdate s r)^[n] (scoreOf m nid) - r| < ε) := by
  refine ⟨?_, fun s => ⟨emaUpdate_nonneg s r, emaUpdate_le_one s r⟩,
    fun s h0 h1 => emaUpdate_contraction s r h0 h1 hr0 hr1,
    emaIter_dist r hr0 hr1 _ hs0 hs1, ?_⟩
  · have step : update_from_trajectory m [nid] r
        = ainsert m nid (emaUpdate (scoreOf m nid) r) := by
      simp [update_from_trajectory]
    rw [step, scoreOf, alookup_ainsert, if_pos rfl]
    rfl
  · intro ε hε
    obtain ⟨N, hN⟩ := exists_pow_lt_of_lt_one hε (by norm_num : (0.9 : ℚ) < 1)
    refine ⟨N, fun n hn => ?_⟩
    rw [emaIter_dist r hr0 hr1 _ hs0 hs1 n]
    have hd : |scoreOf m nid - r| ≤ 1 := by
      rw [abs_sub_le_iff]; constructor <;> linarith
    have hpow : (0.9 : ℚ) ^ n ≤ 0.9 ^ N :=
      pow_le_pow_of_le_one (by norm_num) (by norm_num) hn
    have hnn : (0 : ℚ) ≤ 0.9 ^ n := by positivity
    calc (0.9 : ℚ) ^ n * |scoreOf m nid - r| ≤ 0.9 ^ n * 1 := by
          exact mul_le_mul_of_nonneg_left hd hnn
      _ = 0.9 ^ n := mul_one _
      _ ≤ 0.9 ^ N := hpow
      _ < ε := hN

/-- Witness for C5 at `m = [("a", 0)]`, `nid = "a"`, `reward = 1`. -/
theorem C5_score_update_ema_witness :
    ((0:ℚ) ≤ 1 ∧ (1:ℚ) ≤ 1 ∧ 0 ≤ scoreOf [("a", (0:ℚ))] "a"
      ∧ scoreOf [("a", (0:ℚ))] "a" ≤ 1)
    ∧ scoreOf (update_from_trajectory [("a", (0:ℚ))] ["a"] 1) "a"
        = max 0 (min 1 (scoreOf [("a", (0:ℚ))] "a" * 0.9 + 1 * 0.1)) :=
  ⟨⟨by simp, by simp, by simp [scoreOf, alookup], by simp [scoreOf, alookup]⟩,
   (C5_score_update_ema [("a", (0:ℚ))] "a" 1 (by simp) (by simp)
     (by simp [scoreOf, alookup]) (by simp [scoreOf, alookup])).1⟩

/-- C10: `update_from_trajectory` only writes the listed ids: any id not in
`node_ids` keeps its exact score entry, and no existing entry is ever
removed from the score map. -/
theorem C10_update_frame (m : List (String × ℚ)) (ids : List String) (r : ℚ)
    (nid : String) (h : nid ∉ ids) :
    alookup (update_from_trajectory m ids r) nid = alookup m nid
    ∧ (∀ k v, alookup m k = some v →
        ∃ w, alookup (update_from_trajectory m ids r) k = some w) := by
  refine ⟨alookup_update_not_mem m ids r nid h, fun k v hv => ?_⟩
  have := alookup_update_isSome m ids r k (by simp [hv])
  exact Option.isSome_iff_exists.mp this

/-- Witness for C10 at `m = [("a", 1/4), ("b", 1/3)]`, `ids = ["a"]`,
`nid = "b"`. -/
theorem C10_update_frame_witness :
    ("b" ∉ ["a"])
    ∧ alookup (update_from_trajectory [("a", (1:ℚ)/4), ("b", (1:ℚ)/3)] ["a"] 1) "b"
        = alookup [("a", (1:ℚ)/4), ("b", (1:ℚ)/3)] "b" :=
  ⟨by decide,
   (C10_update_frame [("a", (1:ℚ)/4), ("b", (1:ℚ)/3)] ["a"] 1 "b" (by decide)).1⟩

/-- C6: `compute_rewards` blends `alpha * rank + beta * preference +
gamma * outcome` per trajectory, and is linear in the weight configuration:
scaling all three weights by a common constant scales every trajectory's
reward by that constant, the events held fixed. -/
theorem C6_compute_rewards_linear (a b g c : ℚ) (events : List FeedbackEvent)
    (tids : List String) :
    compute_rewards ⟨c * a, c * b, c * g⟩ events tids
      = (compute_rewards ⟨a, b, g⟩ events tids).map (fun p => (p.1, c * p.2))
    ∧ (∀ tid, reward_for ⟨a, b, g⟩ events tid
        = a * ruler_score (bucketFor events tid)
          + b * human_score (bucketFor events tid) tid
          + g * online_score (bucketFor events tid)) := by
  constructor
  · simp only [compute_rewards, List.map_map]
    refine List.map_congr_left ?_
    intro tid _
    simp only [Function.comp_apply, reward_for, Prod.mk.injEq, true_and]
    ring
  · intro tid
    rfl

/-- C9: serializing a trajectory with `_traj_to_dict` and reading the record
back with `_traj_from_dict` reproduces an equal reward, an equal metadata
map, and an equal optional final result (with `None` preserved). -/
theorem C9_traj_roundtrip (t : ProjectTrajectory) :
    (traj_from_dict (traj_to_dict t)).map (fun x => x.reward) = some t.reward
    ∧ (traj_from_dict (traj_to_dict t)).map (fun x => x.metadata) = some t.metadata
    ∧ (traj_from_dict (traj_to_dict t)).map (fun x => x.final_email) = some t.final_email := by
  have hAll : ∀ cs : List String, allStrings (cs.map .jStr) = some cs := by
    intro cs
    induction cs with
    | nil => rfl
    | cons x xs ih => simp [allStrings, ih]
  obtain ⟨ms, md, rw, fe⟩ := t
  cases fe with
  | none => simp [traj_to_dict, traj_from_dict, alookup]
  | some f => simp [traj_to_dict, traj_from_dict, alookup, hAll, JVal.pyStr]

/-- C8: `rank_nodes` returns exactly the candidates' node ids as a
permutation of the input, ordered by descending stored score (unseen ids
scoring `0.0`), candidates of equal score kept in their input order (stable
sort), and the content of the query does not affect the result. -/
theorem C8_rank_nodes_spec (scores : List (String × ℚ)) (q q' : String)
    (nodes : List (String × String)) :
    List.Perm (rank_nodes scores q nodes) (nodes.map Prod.fst)
    ∧ (rank_nodes scores q nodes).Pairwise
        (fun i j => scoreOf scores j ≤ scoreOf scores i)
    ∧ (∀ v : ℚ,
        (rank_nodes scores q nodes).filter (fun i => decide (scoreOf scores i = v))
          = (nodes.map Prod.fst).filter (fun i => decide (scoreOf scores i = v)))
    ∧ rank_nodes scores q nodes = rank_nodes scores q' nodes := by
  refine ⟨?_, ?_, ?_, rfl⟩
  · exact List.Perm.map Prod.fst (stableSort_perm _ nodes)
  · rw [rank_nodes, List.pairwise_map]
    exact stableSort_pairwise (fun n => scoreOf scores n.1) nodes
  · intro v
    rw [rank_nodes, List.filter_map, List.filter_map]
    congr 1
    have h := stableSort_filter_key (fun n : String × String => scoreOf scores n.1) v nodes
    simpa [Function.comp] using h

/-- C3 counterexample: in the two-node store `A → B`, `subgraph({A}, 0)`
returns the node set `{A}` but also the edge `(A, B, rel)`, whose target
`B` is not in the returned node set. -/
theorem C3_subgraph_counterexample :
    ¬ (∀ e ∈ (gEx.subgraph ["A"] 0).2,
        e.1 ∈ (gEx.subgraph ["A"] 0).1.map Prod.fst
          ∧ e.2.1 ∈ (gEx.subgraph ["A"] 0).1.map Prod.fst) := by
  decide

/-- C3 (amended): every edge returned by `subgraph` has its source in the
returned node set, and its target among the known nodes of the store — but
not necessarily in the returned node set. -/
theorem C3_subgraph_edge_endpoints (g : KnowledgeGraphStore)
    (center : List String) (radius : Nat) (e : String × String × String)
    (he : e ∈ (g.subgraph center radius).2) :
    e.1 ∈ (g.subgraph center radius).1.map Prod.fst
      ∧ g.hasNode e.2.1 = true := by
  have he' := he
  simp only [KnowledgeGraphStore.subgraph, List.mem_flatMap, List.mem_filterMap] at he'
  obtain ⟨p, hp, ed, hed, hsome⟩ := he'
  have hpmem : p ∈ (g.subgraph center radius).1 := by
    simp only [KnowledgeGraphStore.subgraph, List.mem_filterMap]
    exact hp
  by_cases h : g.hasNode ed.1 = true
  · rw [if_pos h] at hsome
    obtain rfl : (p.1, ed.1, ed.2) = e := Option.some_injective _ hsome
    exact ⟨List.mem_map.mpr ⟨p, hpmem, rfl⟩, h⟩
  · rw [if_neg h] at hsome
    exact absurd hsome (by simp)

/-- Witness for the amended C3 at the concrete store `A → B`, radius 0. -/
theorem C3_subgraph_edge_endpoints_witness :
    (("A", "B", "rel") ∈ (gEx.subgraph ["A"] 0).2)
    ∧ (("A", "B", "rel").1 ∈ (gEx.subgraph ["A"] 0).1.map Prod.fst
        ∧ gEx.hasNode ("A", "B", "rel").2.1 = true) :=
  ⟨by decide, C3_subgraph_edge_endpoints gEx ["A"] 0 ("A", "B", "rel") (by decide)⟩

/-- C7: for every loaded store, seed list and `k ≥ 0`, `expand` returns
exactly `min(k, |store|)` results with pairwise-distinct node ids; the
output is the BFS-discovered nodes (FIFO frontier from the seeds,
deduplicated, unknown ids skipped) followed by the padding nodes taken in
store iteration order. -/
theorem C7_expand_spec (g : KnowledgeGraphStore) (seeds : List String)
    (goal : String) (k : Nat) :
    (g.expand seeds goal k).length = min k g.nodes.length
    ∧ ((g.expand seeds goal k).map Prod.fst).Nodup
    ∧ g.expand seeds goal k
        = ((g.expandLoop k [] [] seeds).1
            ++ ((g.nodes.filter fun p =>
                  decide (p.1 ∉ (g.expandLoop k [] [] seeds).2)).take
                (k - (g.expandLoop k [] [] seeds).1.length))).take k := by
  obtain ⟨hseen, hnd, hsub, hlen⟩ :=
    expandLoop_inv g k [] [] seeds (by simp) (by simp) (by simp) (by simp)
  set out := g.expandLoop k [] [] seeds with hout
  have hALen : out.1.length ≤ g.nodes.length := by
    have hsp := List.subperm_of_subset hnd (fun x hx => hsub x hx)
    have := hsp.length_le
    simpa using this
  have hfiltereq : (g.nodes.filter fun p => decide (p.1 ∉ out.2))
      = g.nodes.filter fun p => decide (p.1 ∉ out.1.map Prod.fst) := by
    apply List.filter_congr
    intro p _
    rw [decide_eq_decide]
    exact not_congr (hseen p.1)
  have hflen : (g.nodes.filter fun p => decide (p.1 ∉ out.1.map Prod.fst)).length
      = g.nodes.length - out.1.length := by
    have hstep : ((g.nodes.map Prod.fst).filter
          fun x => decide (x ∉ out.1.map Prod.fst)).length
        = (g.nodes.filter fun p => decide (p.1 ∉ out.1.map Prod.fst)).length := by
      rw [List.filter_map, List.length_map]
      rfl
    rw [← hstep,
      length_filter_not_mem_eq (g.nodes.map Prod.fst) (out.1.map Prod.fst)
        g.nodes_nodup hnd hsub]
    simp [List.length_map]
  have heq : g.expand seeds goal k
      = (out.1 ++ ((g.nodes.filter fun p => decide (p.1 ∉ out.2)).take
          (k - out.1.length))).take k := by
    simp only [KnowledgeGraphStore.expand]
    rw [← hout]
    by_cases h : out.1.length < k
    · rw [if_pos h, padLoop_eq out.2 k g.nodes out.1 h]
    · rw [if_neg h]
      have h0 : k - out.1.length = 0 := by omega
      rw [h0]
      simp
  refine ⟨?_, ?_, heq⟩
  · rw [heq, List.length_take, List.length_append, List.length_take,
      hfiltereq, hflen]
    omega
  · rw [heq, List.map_take, List.map_append]
    apply (List.take_sublist k _).nodup
    rw [List.nodup_append]
    refine ⟨hnd, ?_, ?_⟩
    · have hsubl : List.Sublist
          ((g.nodes.filter fun p => decide (p.1 ∉ out.2)).take
            (k - out.1.length)) g.nodes :=
        (List.take_sublist _ _).trans (List.filter_sublist _)
      exact (hsubl.map Prod.fst).nodup g.nodes_nodup
    · intro a ha hc
      rcases List.mem_map.mp hc with ⟨p, hp, rfl⟩
      have hpf : p ∈ g.nodes.filter fun q => decide (q.1 ∉ out.2) :=
        (List.take_sublist _ _).subset hp
      have hnot := (List.mem_filter.mp hpf).2
      simp only [decide_eq_true_eq] at hnot
      exact hnot ((hseen p.1).mpr ha)

end Codreamer
